import Mathlib

/-!
Verification of the welder schema / ABI type-descriptor converter and of the
reflective value-type builder.

The definitions below are a shallow embedding of the Go sources:

* `types/types.go`, `types/element.go` — the schema model (`Element`,
  `ElementType`).
* `ether/element.go` — `EtherParser.Serialize` / `EtherParser.Deserialize`
  and their per-kind encode/decode helpers, targeting go-ethereum `abi.Type`.
* the builder package (`Builder`, `Build`, `buildType`, ...) together with
  the Ethereum builder configuration (`EtherReflectFns`, `EtherStructTag`,
  `EtherBuilderOptions` in `ether/types.go`, wired by `NewEthereumBuilder`
  in `ether.go`).

Go machine integers (`int`) are modelled as `Int`; the modelled code paths
only compare and copy sizes, so no overflow arithmetic occurs.  Go's
`(value, error)` returns are modelled with `Except`; a `nil` error is
`Except.ok`.
-/

/-- `types.ElementType` (`types/types.go`) is a Go string; the kind
vocabulary constants are the string literals `"int"`, `"uint"`, `"float"`,
`"string"`, `"bytes"`, `"address"`, `"boolean"`, `"array"`, `"object"`. -/
abbrev ElementType := String

/-- `types.Element` (`types/element.go`): fields `Name`, `Type`, `Size`,
`Children`.  `Elements` is `List Element`. -/
inductive Element : Type where
  | mk (name : String) (type : ElementType) (size : Int) (children : List Element)

/-- Field `Name` of `types.Element`. -/
def Element.name : Element → String
  | .mk n _ _ _ => n

/-- Field `Type` of `types.Element`. -/
def Element.type : Element → ElementType
  | .mk _ t _ _ => t

/-- Field `Size` of `types.Element`. -/
def Element.size : Element → Int
  | .mk _ _ s _ => s

/-- Field `Children` of `types.Element`. -/
def Element.children : Element → List Element
  | .mk _ _ _ cs => cs

/-- `childElem.Name = name` assignment used in `decodeObject` / `deserialize`
(`ether/element.go`): replaces the `Name` field, keeps the rest. -/
def Element.setName : Element → String → Element
  | .mk _ t s cs, n => .mk n t s cs

/-- go-ethereum's `abi.T` byte enumeration (`IntTy = 0`, `UintTy`, `BoolTy`,
`StringTy`, `SliceTy`, `ArrayTy`, `TupleTy`, `AddressTy`, `FixedBytesTy`,
`BytesTy`, `HashTy`, `FixedPointTy`, `FunctionTy`). -/
inductive AbiT : Type where
  | IntTy
  | UintTy
  | BoolTy
  | StringTy
  | SliceTy
  | ArrayTy
  | TupleTy
  | AddressTy
  | FixedBytesTy
  | BytesTy
  | HashTy
  | FixedPointTy
  | FunctionTy
deriving DecidableEq

/-- go-ethereum `abi.Type`, restricted to the fields the welder code reads or
writes: `T`, `Size`, `Elem` (a nullable pointer, modelled as `Option`),
`TupleRawNames` and `TupleElems`.  The generated reflect struct `TupleType`
is consumed only by the external codec, is never read by `decode`, and
carries no information used by any modelled operation, so it is not part of
the model. -/
inductive AbiType : Type where
  | mk (t : AbiT) (size : Int) (elem : Option AbiType)
       (tupleRawNames : List String) (tupleElems : List AbiType)

/-- Field `T` of `abi.Type`. -/
def AbiType.t : AbiType → AbiT
  | .mk t _ _ _ _ => t

/-- Field `Size` of `abi.Type`. -/
def AbiType.size : AbiType → Int
  | .mk _ s _ _ _ => s

/-- Field `Elem` of `abi.Type`. -/
def AbiType.elem : AbiType → Option AbiType
  | .mk _ _ e _ _ => e

/-- Field `TupleRawNames` of `abi.Type`. -/
def AbiType.tupleRawNames : AbiType → List String
  | .mk _ _ _ ns _ => ns

/-- Field `TupleElems` of `abi.Type`. -/
def AbiType.tupleElems : AbiType → List AbiType
  | .mk _ _ _ _ ts => ts

/-- `emptyTy = abi.Type{}` (`ether/types.go`): the Go zero value, whose tag
byte `0` is `IntTy`.  It is the value Go returns alongside a non-nil error;
in the `Except` embedding the error path carries no type, so `emptyTy` only
documents the correspondence. -/
def emptyTy : AbiType := .mk .IntTy 0 none [] []

/-- go-ethereum `abi.Argument`, restricted to the fields the welder code
uses: `Name` and `Type` (the `Indexed` flag is never read or written here).
`AbiElements` is `List Argument`. -/
structure Argument where
  name : String
  type : AbiType

/-- Go's `%q` formatting of a string (used by the converter's error
messages): the string wrapped in double quotes. -/
def goQuote (s : String) : String := "\"" ++ s ++ "\""

/-- `strings.Split(input, "_")` on the character level: splitting on the
single-character separator `_` (an empty input yields one empty part, as in
Go). -/
def splitOnUnderscore : List Char → List (List Char)
  | [] => [[]]
  | c :: rest =>
    match splitOnUnderscore rest with
    | [] => [[c]]
    | p :: ps => if c = '_' then [] :: p :: ps else (c :: p) :: ps

/-- The per-part step of `ToCamelCase`: a non-empty part gets its first
character upper-cased. -/
def capitalizePart : List Char → List Char
  | [] => []
  | c :: rest => c.toUpper :: rest

/-- `abi.ToCamelCase` (go-ethereum, used by `encodeObject`) and
`utils.ToCamelCase` (`internal/utils`, used by `buildObject`) implement the
same algorithm: split on `_`, capitalize the first byte of every non-empty
part, join. -/
def ToCamelCase (input : String) : String :=
  String.mk (List.join ((splitOnUnderscore input.data).map capitalizePart))

/-- `reflect.StructOf`'s per-field name validation (ASCII approximation): a
usable struct field name is non-empty, starts with an upper-case letter
(exported — an unexported name without `PkgPath` also panics), and
continues with letters, digits or underscores. -/
def isValidExportedFieldName (s : String) : Bool :=
  match s.data with
  | [] => false
  | ch :: rest => ch.isUpper && rest.all (fun c => c.isAlpha || c.isDigit || c == '_')

/-- No two field names coincide (`reflect.StructOf` panics on a duplicate
field name). -/
def allDistinct : List String → Bool
  | [] => true
  | n :: rest => !rest.contains n && allDistinct rest

/-- The condition under which `reflect.StructOf` accepts a field-name list
instead of panicking: every name valid and exported, and no duplicates. -/
def structOfNamesOk (names : List String) : Bool :=
  names.all isValidExportedFieldName && allDistinct names

/-! ### Forward conversion: `EtherParser.Serialize` (`ether/element.go`) -/

/-- `EtherParser.encodeString`: guard on the kind, then a plain string
descriptor `abi.Type{T: abi.StringTy}`. -/
def encodeString (elem : Element) : Except String AbiType :=
  if elem.type ≠ "string" then
    .error ("`encodeString` does not support type " ++ goQuote elem.type)
  else
    .ok (.mk .StringTy 0 none [] [])

/-- `EtherParser.encodeBytes`: dynamic `BytesTy` when `Size <= 0`, else
`FixedBytesTy` carrying `Size`. -/
def encodeBytes (elem : Element) : Except String AbiType :=
  if elem.type ≠ "bytes" then
    .error ("`encodeBytes` does not support type " ++ goQuote elem.type)
  else if elem.size ≤ 0 then
    .ok (.mk .BytesTy 0 none [] [])
  else
    .ok (.mk .FixedBytesTy elem.size none [] [])

/-- `EtherParser.encodeAddress`: guard on the kind, then
`abi.Type{T: abi.AddressTy}`. -/
def encodeAddress (elem : Element) : Except String AbiType :=
  if elem.type ≠ "address" then
    .error ("`encodeAddress` does not support type " ++ goQuote elem.type)
  else
    .ok (.mk .AddressTy 0 none [] [])

/-- `EtherParser.encodeNumber`: `IntTy`/`UintTy` by kind; `Size <= 0`
defaults the width to 64, otherwise the width is copied. -/
def encodeNumber (elem : Element) : Except String AbiType :=
  if elem.type = "int" then
    .ok (.mk .IntTy (if elem.size ≤ 0 then 64 else elem.size) none [] [])
  else if elem.type = "uint" then
    .ok (.mk .UintTy (if elem.size ≤ 0 then 64 else elem.size) none [] [])
  else
    .error ("`encodeNumber` does not support type " ++ goQuote elem.type)

/-- `EtherParser.encodeBool`: guard on the kind, then
`abi.Type{T: abi.BoolTy}`. -/
def encodeBool (elem : Element) : Except String AbiType :=
  if elem.type ≠ "boolean" then
    .error ("`encodeBool` does not support type " ++ goQuote elem.type)
  else
    .ok (.mk .BoolTy 0 none [] [])

mutual

/-- `EtherParser.encode`: dispatch on `elem.Type`; unknown kinds hit the
default case `parser does not support %q`. -/
def encode : Element → Except String AbiType
  | .mk n t s cs =>
    if t = "string" then encodeString (.mk n t s cs)
    else if t = "bytes" then encodeBytes (.mk n t s cs)
    else if t = "address" then encodeAddress (.mk n t s cs)
    else if t = "int" then encodeNumber (.mk n t s cs)
    else if t = "uint" then encodeNumber (.mk n t s cs)
    else if t = "boolean" then encodeBool (.mk n t s cs)
    else if t = "array" then encodeArray (.mk n t s cs)
    else if t = "object" then encodeObject (.mk n t s cs)
    else .error ("parser does not support " ++ goQuote t)
termination_by e => 2 * sizeOf e + 1
decreasing_by
  all_goals subst_vars
  all_goals simp_wf
  all_goals omega

/-- `EtherParser.encodeArray`: exactly one child is required
(`array must have one child`); the descriptor is `SliceTy`, upgraded to
`ArrayTy` with `Size` when `elem.Size > 0`; the encoded child becomes
`Elem`. -/
def encodeArray : Element → Except String AbiType
  | .mk _ _ s cs =>
    match cs with
    | [c] => do
        let childTy ← encode c
        if 0 < s then
          pure (.mk .ArrayTy s (some childTy) [] [])
        else
          pure (.mk .SliceTy 0 (some childTy) [] [])
    | _ => .error "array must have one child"
termination_by e => 2 * sizeOf e
decreasing_by
  all_goals subst_vars
  all_goals simp_wf
  all_goals omega

/-- `EtherParser.encodeObject`: at least one child is required
(`object must have at least one child`); every child is encoded in order,
its `Name` appended to `TupleRawNames` and its descriptor to `TupleElems`;
finally `reflect.StructOf` assembles the `TupleType` from the camel-cased
field names and panics out of `Serialize` when they are unusable.  The
resulting reflect struct value itself is consumed only by the external
codec and carries no information beyond the field names already present,
so only `StructOf`'s name validation (its panic behavior) is modelled. -/
def encodeObject : Element → Except String AbiType
  | .mk _ _ _ cs =>
    if cs.isEmpty then
      .error "object must have at least one child"
    else do
      let fields ← encodeFields cs
      -- ty.TupleType = reflect.StructOf(fields), built from the field names
      -- abi.ToCamelCase(childElem.Name): StructOf panics on an empty,
      -- invalid, unexported or duplicate field name, and Serialize has no
      -- recover, so that panic escapes Serialize.  The embedding carries
      -- this abnormal termination on the error channel, tagged `panic:`; no
      -- claim identifies it with an ordinary error return.
      if structOfNamesOk (fields.map (fun f => ToCamelCase f.1)) then
        pure (.mk .TupleTy 0 none (fields.map Prod.fst) (fields.map Prod.snd))
      else
        .error "panic: reflect.StructOf: field has no name or invalid name"
termination_by e => 2 * sizeOf e
decreasing_by
  all_goals subst_vars
  all_goals simp_wf
  all_goals omega

/-- The loop body of `encodeObject`: encode each child in order, pairing its
`Name` with its descriptor; the first error aborts the whole loop. -/
def encodeFields : List Element → Except String (List (String × AbiType))
  | [] => pure []
  | c :: rest => do
      let ty ← encode c
      let fs ← encodeFields rest
      pure ((c.name, ty) :: fs)
termination_by cs => 2 * sizeOf cs + 1
decreasing_by
  all_goals subst_vars
  all_goals simp_wf
  all_goals omega

end

/-- `EtherParser.serialize` (the body of `Serialize`): encode each top-level
node in order, copying its `Name` onto the resulting `abi.Argument`; the
first error aborts and returns it alone. -/
def serialize : List Element → Except String (List Argument)
  | [] => pure []
  | e :: rest => do
      let ty ← encode e
      let args ← serialize rest
      pure ({ name := e.name, type := ty } :: args)

/-! ### Reverse conversion: `EtherParser.Deserialize` (`ether/element.go`) -/

/-- `EtherParser.decodeString`: guard on the tag, then a `String` element
(all other fields zero-valued). -/
def decodeString (ty : AbiType) : Except String Element :=
  if ty.t ≠ .StringTy then
    .error "`decodeString` does not support this type"
  else
    .ok (.mk "" "string" 0 [])

/-- `EtherParser.decodeBytes`: accepts `BytesTy` and `FixedBytesTy`, copying
the descriptor's `Size` onto the element. -/
def decodeBytes (ty : AbiType) : Except String Element :=
  if ty.t ≠ .FixedBytesTy ∧ ty.t ≠ .BytesTy then
    .error "`decodeBytes` does not support this type"
  else
    .ok (.mk "" "bytes" ty.size [])

/-- `EtherParser.decodeAddress`: guard on the tag, then an `Address`
element. -/
def decodeAddress (ty : AbiType) : Except String Element :=
  if ty.t ≠ .AddressTy then
    .error "`decodeAddress` does not support this type"
  else
    .ok (.mk "" "address" 0 [])

/-- `EtherParser.decodeNumber`: recovers the signedness from the tag
(`IntTy`/`UintTy`) and the width from the descriptor's `Size`. -/
def decodeNumber (ty : AbiType) : Except String Element :=
  match ty.t with
  | .IntTy => .ok (.mk "" "int" ty.size [])
  | .UintTy => .ok (.mk "" "uint" ty.size [])
  | _ => .error "`decodeNumber` does not support this type"

/-- `EtherParser.decodeBool`: guard on the tag, then a `Bool` element. -/
def decodeBool (ty : AbiType) : Except String Element :=
  if ty.t ≠ .BoolTy then
    .error "`decodeBool` does not support this type"
  else
    .ok (.mk "" "boolean" 0 [])

mutual

/-- `EtherParser.decode`: dispatch on the descriptor tag; `HashTy`,
`FixedPointTy` and `FunctionTy` hit the trailing
`elements does not support type %q` error. -/
def decode : AbiType → Except String Element
  | .mk t s el ns ts =>
    match t with
    | .StringTy => decodeString (.mk t s el ns ts)
    | .BytesTy => decodeBytes (.mk t s el ns ts)
    | .FixedBytesTy => decodeBytes (.mk t s el ns ts)
    | .AddressTy => decodeAddress (.mk t s el ns ts)
    | .IntTy => decodeNumber (.mk t s el ns ts)
    | .UintTy => decodeNumber (.mk t s el ns ts)
    | .BoolTy => decodeBool (.mk t s el ns ts)
    | .SliceTy => decodeArray (.mk t s el ns ts)
    | .ArrayTy => decodeArray (.mk t s el ns ts)
    | .TupleTy => decodeObject (.mk t s el ns ts)
    | _ => .error "elements does not support this type"
termination_by ty => 2 * sizeOf ty + 1
decreasing_by
  all_goals simp_wf
  all_goals try simp [fun u : AbiT => (by cases u <;> rfl : sizeOf u = 1)]
  all_goals omega

/-- `EtherParser.decodeArray`: guard on the tag, reject a nil `Elem`
pointer, decode the element type, and rebuild an `Array` element with one
child; only an `ArrayTy` (fixed-length) descriptor contributes its `Size`,
a `SliceTy` leaves the element's size at zero. -/
def decodeArray : AbiType → Except String Element
  | .mk t s el ns ts =>
    if t ≠ .SliceTy ∧ t ≠ .ArrayTy then
      .error "`decodeArray` does not support this type"
    else
      match el with
      | none => .error "`decodeArray` does not support `*abi.Type.Elem == nil`"
      | some inner => do
          let childEl ← decode inner
          pure (.mk "" "array" (if t = .ArrayTy then s else 0) [childEl])
termination_by ty => 2 * sizeOf ty
decreasing_by
  all_goals simp_wf
  all_goals try simp [fun u : AbiT => (by cases u <;> rfl : sizeOf u = 1)]
  all_goals omega

/-- `EtherParser.decodeObject`: rejects a descriptor whose `TupleElems` and
`TupleRawNames` lengths disagree, decodes every tuple member in order,
assigning it the corresponding raw name, and rebuilds an `Object`
element. -/
def decodeObject : AbiType → Except String Element
  | .mk _ _ _ ns ts =>
    if ts.length ≠ ns.length then
      .error "`decodeObject` does not support invalid abi type"
    else do
      let children ← decodeFields ts ns
      pure (.mk "" "object" 0 children)
termination_by ty => 2 * sizeOf ty
decreasing_by
  all_goals simp_wf
  all_goals try simp [fun u : AbiT => (by cases u <;> rfl : sizeOf u = 1)]
  all_goals omega

/-- The loop body of `decodeObject`: decode each tuple member, then set its
`Name` from the raw-name list.  The caller's length guard makes the
name-list always long enough; the `(_ :: _, [])` case is unreachable from
`decodeObject` (Go indexes `TupleRawNames[i]` directly). -/
def decodeFields : List AbiType → List String → Except String (List Element)
  | [], _ => pure []
  | _ :: _, [] => pure []
  | ty :: tys, n :: restNames => do
      let childEl ← decode ty
      let rest ← decodeFields tys restNames
      pure (childEl.setName n :: rest)
termination_by tys _ => 2 * sizeOf tys + 1
decreasing_by
  all_goals simp_wf
  all_goals omega

end

/-- `EtherParser.deserialize` (the body of `Deserialize`): decode each
argument's type in order, copying the argument's `Name` onto the decoded
element; the first error aborts and returns it alone. -/
def deserialize : List Argument → Except String (List Element)
  | [] => pure []
  | a :: rest => do
      let el ← decode a.type
      let els ← deserialize rest
      pure (el.setName a.name :: els)

/-! ### Value synthesizer: the builder package and its Ethereum
configuration (`ether/types.go`, `ether.go`) -/

/-- The Go `reflect.Type` values the builder can produce.  Each constructor
names the concrete Go type the corresponding `reflect.TypeOf` /
`reflect.SliceOf` / `reflect.ArrayOf` / `reflect.StructOf` call yields.
A struct field is `(Name, Type, Tag)` as assembled in `buildObject`. -/
inductive GoType : Type where
  | goString
  | goBool
  | goUint8
  | goUint16
  | goUint32
  | goUint64
  | goInt8
  | goInt16
  | goInt32
  | goInt64
  | goFloat32
  | goFloat64
  | bigIntPtr
  | byteSlice
  | commonAddress
  | hexutilBytes
  | byteArray (n : Int)
  | sliceOf (elem : GoType)
  | structOf (fields : List (String × GoType × String))

/-- A failed Go computation: either an ordinary `error` return (`err`) or a
runtime panic propagating up the stack (`goPanic`).  `Build`'s
`defer/recover` turns the latter into the former. -/
inductive Fault : Type where
  | err (msg : String)
  | goPanic (msg : String)
deriving DecidableEq

/-- The error message carried by a `Fault`.  For a recovered panic this is
Go's `fmt.Errorf("%v", r)` rendering of the panic value. -/
def Fault.message : Fault → String
  | .err m => m
  | .goPanic m => m

/-- `builder.ReflectFn`: a custom `types.Element → reflect.Type`
constructor. -/
abbrev ReflectFn := Element → Except Fault GoType

/-- `builder.Builder`: the per-kind override table and the struct-tag
generator.  (`builder.Option` carries the same two fields into
`builder.New`; the claims under verification only exercise builders whose
two fields are both set, as `NewEthereumBuilder` does.) -/
structure Builder where
  ReflectReplacers : ElementType → Option ReflectFn
  StructTagReplacer : String → String

/-- `reflect.StructOf`: builds the struct type, or panics when the field
names are unusable — an empty, invalid, unexported or duplicate name (the
several distinct Go panic messages are approximated by one). -/
def reflectStructOf (fields : List (String × GoType × String)) : Except Fault GoType :=
  if structOfNamesOk (fields.map (fun f => f.1)) then
    .ok (.structOf fields)
  else
    .error (.goPanic "reflect.StructOf: field has no name or invalid name")

/-- `Builder.buildString`: Go `string`. -/
def buildString (_ : Element) : Except Fault GoType :=
  .ok .goString

/-- `Builder.buildUint`: native unsigned width for 8/16/32/64 (0 defaults to
64), `*big.Int` otherwise. -/
def buildUint (elem : Element) : Except Fault GoType :=
  if elem.size = 8 then .ok .goUint8
  else if elem.size = 16 then .ok .goUint16
  else if elem.size = 32 then .ok .goUint32
  else if elem.size = 0 ∨ elem.size = 64 then .ok .goUint64
  else .ok .bigIntPtr

/-- `Builder.buildInt`: native signed width for 8/16/32/64 (0 defaults to
64), `*big.Int` otherwise. -/
def buildInt (elem : Element) : Except Fault GoType :=
  if elem.size = 8 then .ok .goInt8
  else if elem.size = 16 then .ok .goInt16
  else if elem.size = 32 then .ok .goInt32
  else if elem.size = 0 ∨ elem.size = 64 then .ok .goInt64
  else .ok .bigIntPtr

/-- `Builder.buildFloat`: `float32` for size 32, `float64` for size 0 or 64,
an error otherwise. -/
def buildFloat (elem : Element) : Except Fault GoType :=
  if elem.size = 32 then .ok .goFloat32
  else if elem.size = 0 ∨ elem.size = 64 then .ok .goFloat64
  else .error (.err ("`Builder` does not support type " ++ goQuote elem.type ++
    " with this size"))

/-- `Builder.buildBool`: Go `bool`. -/
def buildBool (_ : Element) : Except Fault GoType :=
  .ok .goBool

/-- `Builder.buildBytes`: Go `[]byte`. -/
def buildBytes (_ : Element) : Except Fault GoType :=
  .ok .byteSlice

/-- `Builder.buildAddress`: the default implementation always fails; a
replacer must be supplied (as the Ethereum configuration does). -/
def buildAddress (_ : Element) : Except Fault GoType :=
  .error (.err ("`Builder` does not support type " ++ goQuote "address"))

/-- `builder.unwrapReplacer`: use the replacer registered for the element's
kind when present, else the given default constructor. -/
def unwrapReplacer (elem : Element) (defaultFn : ReflectFn)
    (replacerFns : ElementType → Option ReflectFn) : Except Fault GoType :=
  match replacerFns elem.type with
  | some fn => fn elem
  | none => defaultFn elem

mutual

/-- `Builder.buildType`: dispatch on the element's kind through
`unwrapReplacer`; unknown kinds hit the default case
``​`Builder does not support type %q``.  At the two recursive kinds the
`unwrapReplacer` call is unfolded in place (same semantics) so that the
recursion is visibly on a child element. -/
def buildType (b : Builder) : Element → Except Fault GoType
  | .mk n t s cs =>
    if t = "string" then unwrapReplacer (.mk n t s cs) buildString b.ReflectReplacers
    else if t = "int" then unwrapReplacer (.mk n t s cs) buildInt b.ReflectReplacers
    else if t = "uint" then unwrapReplacer (.mk n t s cs) buildUint b.ReflectReplacers
    else if t = "float" then unwrapReplacer (.mk n t s cs) buildFloat b.ReflectReplacers
    else if t = "boolean" then unwrapReplacer (.mk n t s cs) buildBool b.ReflectReplacers
    else if t = "bytes" then unwrapReplacer (.mk n t s cs) buildBytes b.ReflectReplacers
    else if t = "address" then unwrapReplacer (.mk n t s cs) buildAddress b.ReflectReplacers
    else if t = "array" then
      match b.ReflectReplacers t with
      | some fn => fn (.mk n t s cs)
      | none => buildArray b (.mk n t s cs)
    else if t = "object" then
      match b.ReflectReplacers t with
      | some fn => fn (.mk n t s cs)
      | none => buildObject b (.mk n t s cs)
    else .error (.err ("`Builder does not support type " ++ goQuote t))
termination_by e => 2 * sizeOf e + 1
decreasing_by
  all_goals simp_wf
  all_goals omega

/-- `Builder.buildArray`: exactly one child is required
(`array must have one child`); the result is a slice of the child's
type. -/
def buildArray (b : Builder) : Element → Except Fault GoType
  | .mk _ _ _ cs =>
    match cs with
    | [c] => do
        let ty ← buildType b c
        pure (.sliceOf ty)
    | _ => .error (.err "array must have one child")
termination_by e => 2 * sizeOf e
decreasing_by
  all_goals simp_wf
  all_goals omega

/-- `Builder.buildObject`: at least one child is required
(`object must have at least one child`); each child contributes a struct
field `(ToCamelCase(Name), type, StructTagReplacer(Name))`, then
`reflect.StructOf` assembles the struct (and may panic). -/
def buildObject (b : Builder) : Element → Except Fault GoType
  | .mk _ _ _ cs =>
    if cs.isEmpty then
      .error (.err "object must have at least one child")
    else do
      let fields ← buildFieldList b cs
      reflectStructOf fields
termination_by e => 2 * sizeOf e
decreasing_by
  all_goals simp_wf
  all_goals omega

/-- The loop body of `buildObject`: build each child's type in order,
pairing it with the camel-cased field name and the generated struct tag. -/
def buildFieldList (b : Builder) : List Element → Except Fault (List (String × GoType × String))
  | [] => pure []
  | c :: rest => do
      let ty ← buildType b c
      let fs ← buildFieldList b rest
      pure ((ToCamelCase c.name, ty, b.StructTagReplacer c.name) :: fs)
termination_by cs => 2 * sizeOf cs + 1
decreasing_by
  all_goals simp_wf
  all_goals omega

end

/-- `Builder.Build`: run `buildType` under `defer/recover`.  On success Go
returns `reflect.New(ty).Interface()`, a freshly allocated zero value of
the built type — modelled by the type itself, the value being determined by
it.  On an ordinary error that error is returned with a nil value; a panic
is recovered and converted to `fmt.Errorf("%v", r)`, also with a nil value.
The result mirrors Go's `(value any, err error)` pair. -/
def Build (b : Builder) (elem : Element) : Option GoType × Option String :=
  match buildType b elem with
  | .ok ty => (some ty, none)
  | .error f => (none, some f.message)

/-- `Builder.Builds`: `Build` every top-level node in order, short-circuiting
on the first failure. -/
def Builds (b : Builder) : List Element → Except String (List GoType)
  | [] => pure []
  | e :: rest =>
    match Build b e with
    | (some v, none) => do
        let vs ← Builds b rest
        pure (v :: vs)
    | (_, some m) => .error m
    | (none, none) => .error ""

/-- `builder.DefaultReflectReplacers`: an empty map — no kind is
overridden. -/
def DefaultReflectReplacers : ElementType → Option ReflectFn :=
  fun _ => none

/-- `builder.DefaultStructTag`: `json:"name"`. -/
def DefaultStructTag (tag : String) : String :=
  "json:" ++ goQuote tag

/-- `ether.ReflectAddressFn`: always `common.Address`. -/
def ReflectAddressFn (_ : Element) : Except Fault GoType :=
  .ok .commonAddress

/-- `ether.ReflectBytesFn`: `hexutil.Bytes` when `Size == 0`, else
`reflect.ArrayOf(Size, byte)` — which panics inside `reflect` on a negative
length. -/
def ReflectBytesFn (elem : Element) : Except Fault GoType :=
  if elem.size = 0 then .ok .hexutilBytes
  else if elem.size < 0 then .error (.goPanic "reflect: negative length")
  else .ok (.byteArray elem.size)

/-- `ether.ReflectFloatFn`: the EVM has no floats; every float element is
rejected with an error naming the kind. -/
def ReflectFloatFn (elem : Element) : Except Fault GoType :=
  .error (.err ("EVM compatibility does not support float types: " ++ elem.type))

/-- `ether.EtherReflectFns`: the Ethereum override table — `Address`,
`Bytes` and `Float` are replaced, everything else falls through to the
defaults. -/
def EtherReflectFns : ElementType → Option ReflectFn :=
  fun t =>
    if t = "address" then some ReflectAddressFn
    else if t = "bytes" then some ReflectBytesFn
    else if t = "float" then some ReflectFloatFn
    else none

/-- `ether.EtherStructTag`: `abi:"name" json:"name"`. -/
def EtherStructTag (tag : String) : String :=
  "abi:" ++ goQuote tag ++ " json:" ++ goQuote tag

/-- The builder produced by `NewEthereumBuilder()` (`ether.go`):
`builder.New(ether.EtherBuilderOptions)` with both option fields set, i.e.
`EtherReflectFns` and `EtherStructTag`. -/
def etherBuilder : Builder :=
  { ReflectReplacers := EtherReflectFns, StructTagReplacer := EtherStructTag }

/-! ### Statement-level predicates -/

/-- The closed kind vocabulary the spec's claims name as supported by the
converter: `{String, Int, Uint, Bool, Bytes, Address, Array, Object}` in the
`types.ElementType` spelling. -/
def supportedKinds : List ElementType :=
  ["string", "int", "uint", "boolean", "bytes", "address", "array", "object"]

mutual

/-- The schema-model invariants of the spec's data model, as a decidable
predicate: supported kind; `size` nonnegative where it is meaningful
(`Int`/`Uint` widths, `Bytes` lengths, `Array` counts) and zero where the
spec calls it ignored (`String`/`Bool`/`Address`/`Object`); an `Array` node
has exactly one child whose name is empty; an `Object` node has at least
one child, and its children carry names (necessarily non-empty, per the
spec's name invariant) whose camel-cased forms `reflect.StructOf` accepts —
valid exported identifiers, pairwise distinct; children are recursively
well-formed. -/
def wf : Element → Bool
  | .mk _ t s cs =>
    if t = "string" ∨ t = "boolean" ∨ t = "address" then
      s == 0 && cs.isEmpty
    else if t = "int" ∨ t = "uint" ∨ t = "bytes" then
      decide (0 ≤ s) && cs.isEmpty
    else if t = "array" then
      decide (0 ≤ s) && wfArrayChildren cs
    else if t = "object" then
      s == 0 && !cs.isEmpty &&
        structOfNamesOk (cs.map (fun c => ToCamelCase c.name)) && wfList cs
    else
      false
termination_by e => 2 * sizeOf e + 1
decreasing_by
  all_goals simp_wf
  all_goals omega

/-- The child-list shape an `Array` node must have: exactly one child, whose
name is empty and which is itself well-formed. -/
def wfArrayChildren : List Element → Bool
  | [c] => c.name == "" && wf c
  | _ => false
termination_by cs => 2 * sizeOf cs + 1
decreasing_by
  all_goals simp_wf
  all_goals omega

/-- `wf` on every element of a list. -/
def wfList : List Element → Bool
  | [] => true
  | c :: rest => wf c && wfList rest
termination_by cs => 2 * sizeOf cs + 1
decreasing_by
  all_goals simp_wf
  all_goals omega

end

mutual

/-- The normalization the round-trip claim states: an unset (zero) width on
an `Int`/`Uint` node becomes 64; every other field of every node is kept
verbatim. -/
def normClaim : Element → Element
  | .mk n t s cs =>
    .mk n t (if (t = "int" ∨ t = "uint") ∧ s = 0 then 64 else s) (normClaimList cs)
termination_by e => 2 * sizeOf e + 1
decreasing_by
  all_goals simp_wf
  all_goals omega

/-- `normClaim` applied to every element of a list. -/
def normClaimList : List Element → List Element
  | [] => []
  | c :: rest => normClaim c :: normClaimList rest
termination_by cs => 2 * sizeOf cs + 1
decreasing_by
  all_goals simp_wf
  all_goals omega

end

/-- Erase an element's `Name` (the decoder always leaves the name of the
element it returns empty; `deserialize`/`decodeObject` reinstate names from
the argument/tuple metadata afterwards). -/
def clearName (e : Element) : Element :=
  e.setName ""

mutual

/-- The name-preservation property of the forward conversion, as a
decidable predicate on an element/descriptor pair: at every `Object` node
the descriptor's `TupleRawNames` are exactly the children's names in order
and the tuple members correspond pointwise; at every `Array` node the
single child corresponds to the descriptor's `Elem`; other kinds impose
nothing deeper. -/
def namesAligned : Element → AbiType → Bool
  | .mk _ t _ cs, ty =>
    if t = "object" then
      ty.tupleRawNames == cs.map Element.name &&
        namesAlignedList cs ty.tupleElems
    else if t = "array" then
      namesAlignedArray cs ty.elem
    else
      true
termination_by e _ => 2 * sizeOf e + 1
decreasing_by
  all_goals simp_wf
  all_goals omega

/-- The `Array` case of `namesAligned`: the node has exactly one child and
the descriptor a present element type, and they correspond. -/
def namesAlignedArray : List Element → Option AbiType → Bool
  | [c], some inner => namesAligned c inner
  | _, _ => false
termination_by cs _ => 2 * sizeOf cs
decreasing_by
  all_goals simp_wf
  all_goals omega

/-- Pointwise `namesAligned` over equally long lists. -/
def namesAlignedList : List Element → List AbiType → Bool
  | [], [] => true
  | c :: cs, ty :: tys => namesAligned c ty && namesAlignedList cs tys
  | _, _ => false
termination_by cs _ => 2 * sizeOf cs + 1
decreasing_by
  all_goals simp_wf
  all_goals omega

end

/-- The fixed-vs-arbitrary-precision numeric mapping the spec claims for
the synthesizer: native width for sizes 8/16/32/64 (an unset 0 treated as
64-bit), arbitrary-precision `*big.Int` for every other size.  Stated from
the claim's words, to be compared against `buildType`. -/
def claimNativeNumType (t : ElementType) (s : Int) : GoType :=
  if s = 8 then (if t = "uint" then .goUint8 else .goInt8)
  else if s = 16 then (if t = "uint" then .goUint16 else .goInt16)
  else if s = 32 then (if t = "uint" then .goUint32 else .goInt32)
  else if s = 0 ∨ s = 64 then (if t = "uint" then .goUint64 else .goInt64)
  else .bigIntPtr

/-- Concrete two-field object schema used by the name-preservation
witness. -/
def c5schema : List Element :=
  [Element.mk "w" "object" 0 [Element.mk "a" "string" 0 [], Element.mk "b" "int" 0 []]]

/-- The descriptor list `serialize` produces for `c5schema`. -/
def c5args : List Argument :=
  [{ name := "w",
     type := AbiType.mk .TupleTy 0 none ["a", "b"]
       [AbiType.mk .StringTy 0 none [] [], AbiType.mk .IntTy 64 none [] []] }]

/-! ### Proof infrastructure -/

@[simp] theorem Element.name_mk (n t s cs) : (Element.mk n t s cs).name = n := rfl
@[simp] theorem Element.type_mk (n t s cs) : (Element.mk n t s cs).type = t := rfl
@[simp] theorem Element.size_mk (n t s cs) : (Element.mk n t s cs).size = s := rfl
@[simp] theorem Element.children_mk (n t s cs) : (Element.mk n t s cs).children = cs := rfl

@[simp] theorem Element.setName_mk (n t s cs m) :
    (Element.mk n t s cs).setName m = Element.mk m t s cs := rfl

/-- Every `AbiT` tag has the same size-of. -/
@[simp] theorem AbiT.sizeOf_eq (t : AbiT) : sizeOf t = 1 := by
  cases t <;> rfl

@[simp] theorem AbiType.t_mk (t s e ns ts) : (AbiType.mk t s e ns ts).t = t := rfl
@[simp] theorem AbiType.size_of_mk (t s e ns ts) : (AbiType.mk t s e ns ts).size = s := rfl
@[simp] theorem AbiType.elem_mk (t s e ns ts) : (AbiType.mk t s e ns ts).elem = e := rfl
@[simp] theorem AbiType.tupleRawNames_mk (t s e ns ts) :
    (AbiType.mk t s e ns ts).tupleRawNames = ns := rfl
@[simp] theorem AbiType.tupleElems_mk (t s e ns ts) :
    (AbiType.mk t s e ns ts).tupleElems = ts := rfl


@[simp] theorem exceptOkBind {ε α β : Type} (x : α) (f : α → Except ε β) :
    (Except.ok x >>= f : Except ε β) = f x := rfl

@[simp] theorem exceptErrorBind {ε α β : Type} (e : ε) (f : α → Except ε β) :
    (Except.error e >>= f : Except ε β) = .error e := rfl

@[simp] theorem exceptPureEqOk {ε α : Type} (x : α) :
    (pure x : Except ε α) = .ok x := rfl

/-- Strong induction over the nested `Element` tree: to prove a property of
every element it suffices to prove it for `mk` assuming it for every
child. -/
theorem Element.strongInduction {P : Element → Prop}
    (step : ∀ n t s cs, (∀ c ∈ cs, P c) → P (Element.mk n t s cs)) :
    ∀ e, P e := by
  have H : ∀ k (e : Element), sizeOf e ≤ k → P e := by
    intro k
    induction k with
    | zero =>
      intro e he
      cases e with
      | mk n t s cs =>
        have h2 : sizeOf (Element.mk n t s cs) = 1 + sizeOf n + sizeOf t + sizeOf s + sizeOf cs := by
          simp
        omega
    | succ k ih =>
      intro e he
      cases e with
      | mk n t s cs =>
        apply step
        intro c hc
        apply ih
        have h1 := List.sizeOf_lt_of_mem hc
        have h2 : sizeOf (Element.mk n t s cs) = 1 + sizeOf n + sizeOf t + sizeOf s + sizeOf cs := by
          simp
        omega
  exact fun e => H (sizeOf e) e le_rfl

@[simp] theorem normClaim_mk (n t s cs) :
    normClaim (.mk n t s cs) =
      .mk n t (if (t = "int" ∨ t = "uint") ∧ s = 0 then 64 else s) (normClaimList cs) := by
  simp [normClaim]

@[simp] theorem normClaimList_nil : normClaimList [] = [] := by simp [normClaimList]

@[simp] theorem normClaimList_cons (c cs) :
    normClaimList (c :: cs) = normClaim c :: normClaimList cs := by simp [normClaimList]

/-- `normClaim` never changes an element's name. -/
theorem normClaim_name (e : Element) : (normClaim e).name = e.name := by
  cases e with
  | mk n t s cs => simp

/-- Setting the name back after clearing it restores the element. -/
theorem setName_clearName (e : Element) : (clearName e).setName e.name = e := by
  cases e with
  | mk n t s cs => simp [clearName]

/-- An element with an empty name is unchanged by `clearName`. -/
theorem clearName_of_name_empty (e : Element) (h : e.name = "") : clearName e = e := by
  cases e with
  | mk n t s cs => simp at h; simp [clearName, h]

/-- Camel-cased field names computed from encoded field pairs coincide with
those computed from the children, once the raw names coincide. -/
theorem camelNames_eq (fs : List (String × AbiType)) (cs : List Element)
    (h : fs.map Prod.fst = cs.map Element.name) :
    fs.map (fun f => ToCamelCase f.1) = cs.map (fun c => ToCamelCase c.name) := by
  have h2 := congrArg (List.map ToCamelCase) h
  simpa [List.map_map, Function.comp] using h2

/-! ### Shared lemmas about the forward/backward conversion -/

@[simp] theorem wfArrayChildren_nil : wfArrayChildren [] = false := by
  rw [wfArrayChildren]
  simp

@[simp] theorem wfArrayChildren_cons2 (c d : Element) (ds : List Element) :
    wfArrayChildren (c :: d :: ds) = false := by
  rw [wfArrayChildren]
  simp

@[simp] theorem wfArrayChildren_single (c : Element) :
    wfArrayChildren [c] = (c.name == "" && wf c) := by
  rw [wfArrayChildren]

/-- Auxiliary round-trip step for object children: encoding a well-formed
child list yields field pairs whose names are the children's names, and
decoding the encoded members against those names recovers the normalized
children. -/
theorem encodeFields_roundtrip (cs : List Element)
    (IH : ∀ c ∈ cs, wf c = true →
      ∃ ty, encode c = .ok ty ∧ decode ty = .ok (clearName (normClaim c)))
    (hwf : wfList cs = true) :
    ∃ fs, encodeFields cs = .ok fs ∧
      fs.map Prod.fst = cs.map Element.name ∧
      decodeFields (fs.map Prod.snd) (fs.map Prod.fst) = .ok (normClaimList cs) := by
  induction cs with
  | nil =>
    exact ⟨[], by simp [encodeFields], by simp, by simp [decodeFields]⟩
  | cons c rest ihr =>
    rw [wfList] at hwf
    simp only [Bool.and_eq_true] at hwf
    obtain ⟨ty, h1, h2⟩ := IH c (by simp) hwf.1
    obtain ⟨fs, hf1, hf2, hf3⟩ := ihr (fun x hx => IH x (by simp [hx])) hwf.2
    refine ⟨(c.name, ty) :: fs, ?_, ?_, ?_⟩
    · simp [encodeFields, h1, hf1]
    · simp [hf2]
    · simp only [List.map_cons]
      rw [decodeFields]
      simp [h2, hf3, setName_clearName, normClaim_name]
      rw [show c.name = (normClaim c).name from (normClaim_name c).symm]
      exact setName_clearName (normClaim c)

/-- Single-element round trip: encoding a well-formed element succeeds and
decoding the result recovers the normalized element, up to the top-level
name that the decoder leaves empty (the list-level wrappers restore it). -/
theorem encode_decode_wf :
    ∀ e, wf e = true → ∃ ty, encode e = .ok ty ∧ decode ty = .ok (clearName (normClaim e)) := by
  apply Element.strongInduction
    (P := fun e => wf e = true →
      ∃ ty, encode e = .ok ty ∧ decode ty = .ok (clearName (normClaim e)))
  intro n t s cs IH hwf
  rw [wf] at hwf
  split at hwf
  case isTrue h1 =>
    simp only [Bool.and_eq_true, beq_iff_eq, List.isEmpty_iff] at hwf
    obtain ⟨hs, hcs⟩ := hwf
    subst hs hcs
    rcases h1 with h | h | h <;> subst h
    · exact ⟨.mk .StringTy 0 none [] [], by simp [encode, encodeString],
        by simp [decode, decodeString, clearName]⟩
    · exact ⟨.mk .BoolTy 0 none [] [], by simp [encode, encodeBool],
        by simp [decode, decodeBool, clearName]⟩
    · exact ⟨.mk .AddressTy 0 none [] [], by simp [encode, encodeAddress],
        by simp [decode, decodeAddress, clearName]⟩
  case isFalse h1 =>
  split at hwf
  case isTrue h2 =>
    simp only [Bool.and_eq_true, decide_eq_true_eq, List.isEmpty_iff] at hwf
    obtain ⟨hs, hcs⟩ := hwf
    subst hcs
    rcases h2 with h | h | h <;> subst h
    · by_cases h0 : s = 0
      · subst h0
        exact ⟨.mk .IntTy 64 none [] [], by simp [encode, encodeNumber],
          by simp [decode, decodeNumber, clearName]⟩
      · have hpos : ¬ s ≤ 0 := by omega
        exact ⟨.mk .IntTy s none [] [], by simp [encode, encodeNumber, hpos],
          by simp [decode, decodeNumber, clearName, h0]⟩
    · by_cases h0 : s = 0
      · subst h0
        exact ⟨.mk .UintTy 64 none [] [], by simp [encode, encodeNumber],
          by simp [decode, decodeNumber, clearName]⟩
      · have hpos : ¬ s ≤ 0 := by omega
        exact ⟨.mk .UintTy s none [] [], by simp [encode, encodeNumber, hpos],
          by simp [decode, decodeNumber, clearName, h0]⟩
    · by_cases h0 : s = 0
      · subst h0
        exact ⟨.mk .BytesTy 0 none [] [], by simp [encode, encodeBytes],
          by simp [decode, decodeBytes, clearName]⟩
      · have hpos : ¬ s ≤ 0 := by omega
        exact ⟨.mk .FixedBytesTy s none [] [], by simp [encode, encodeBytes, hpos],
          by simp [decode, decodeBytes, clearName]⟩
  case isFalse h2 =>
  split at hwf
  case isTrue h3 =>
    subst h3
    simp only [Bool.and_eq_true, decide_eq_true_eq] at hwf
    obtain ⟨hs, hmatch⟩ := hwf
    cases cs with
    | nil => rw [wfArrayChildren_nil] at hmatch; exact absurd hmatch (by simp)
    | cons c rest =>
      cases rest with
      | cons d ds => rw [wfArrayChildren_cons2] at hmatch; exact absurd hmatch (by simp)
      | nil =>
        rw [wfArrayChildren_single] at hmatch
        simp only [Bool.and_eq_true, beq_iff_eq] at hmatch
        obtain ⟨hcname, hcwf⟩ := hmatch
        obtain ⟨tyc, hc1, hc2⟩ := IH c (by simp) hcwf
        have hcnorm : clearName (normClaim c) = normClaim c :=
          clearName_of_name_empty (normClaim c) (by rw [normClaim_name]; exact hcname)
        by_cases h0 : 0 < s
        · refine ⟨.mk .ArrayTy s (some tyc) [] [], ?_, ?_⟩
          · simp [encode, encodeArray, hc1, h0]
          · rw [hcnorm] at hc2
            simp [decode, decodeArray, hc2, clearName]
        · have hs0 : s = 0 := by omega
          subst hs0
          refine ⟨.mk .SliceTy 0 (some tyc) [] [], ?_, ?_⟩
          · simp [encode, encodeArray, hc1]
          · rw [hcnorm] at hc2
            simp [decode, decodeArray, hc2, clearName]
  case isFalse h3 =>
  split at hwf
  case isTrue h4 =>
    subst h4
    simp only [Bool.and_eq_true, beq_iff_eq, Bool.not_eq_true'] at hwf
    obtain ⟨⟨⟨hs, hne⟩, hok⟩, hlist⟩ := hwf
    subst hs
    obtain ⟨fs, hf1, hf2, hf3⟩ := encodeFields_roundtrip cs IH hlist
    have hok2 : structOfNamesOk (fs.map (fun f => ToCamelCase f.1)) = true := by
      rw [camelNames_eq fs cs hf2]
      exact hok
    refine ⟨.mk .TupleTy 0 none (fs.map Prod.fst) (fs.map Prod.snd), ?_, ?_⟩
    · simp [encode, encodeObject, hne, hf1, hok2]
    · simp [decode, decodeObject, hf3, clearName]
  case isFalse h4 =>
    exact absurd hwf (by simp)

/-! ### Claim C1 -/

/-- C1 (amended): for every list of schema nodes satisfying the spec's
schema-model invariants (supported kinds; each `Array` node has exactly one
child whose name is empty; each `Object` node has at least one child and
its children carry names — necessarily non-empty — whose camel-cased forms
are valid exported struct-field names, pairwise distinct, so that
`reflect.StructOf` does not panic out of `Serialize`; `size` is zero on
`String`/`Bool`/`Address`/`Object` nodes and nonnegative on
`Int`/`Uint`/`Bytes`/`Array` nodes), `Serialize` succeeds and
`Deserialize ∘ Serialize` returns the same tree except that a zero `size`
on `Int`/`Uint` nodes is normalized to 64; `Array`/`Bytes` sizing is
preserved exactly. -/
theorem C1_roundtrip (elements : List Element) (hwf : wfList elements = true) :
    ∃ args, serialize elements = .ok args ∧
      deserialize args = .ok (normClaimList elements) := by
  induction elements with
  | nil => exact ⟨[], by simp [serialize], by simp [deserialize]⟩
  | cons e rest ih =>
    rw [wfList] at hwf
    simp only [Bool.and_eq_true] at hwf
    obtain ⟨ty, h1, h2⟩ := encode_decode_wf e hwf.1
    obtain ⟨args, ha1, ha2⟩ := ih hwf.2
    refine ⟨{ name := e.name, type := ty } :: args, ?_, ?_⟩
    · simp [serialize, h1, ha1]
    · rw [deserialize]
      simp [h2, ha2]
      rw [show e.name = (normClaim e).name from (normClaim_name e).symm]
      exact setName_clearName (normClaim e)

/-- C1 (counterexample to the claim as stated): the claim quantifies over
every tree built from the supported kind vocabulary and allows only the
`Int`/`Uint` zero-width normalization, but a `String` node with `size = 7`
serializes successfully and deserializes back with `size = 0` — the size of
a `String` node is dropped, which the claimed exception clause does not
cover. -/
theorem C1_counterexample :
    serialize [Element.mk "n" "string" 7 []] =
      .ok [{ name := "n", type := .mk .StringTy 0 none [] [] }] ∧
    deserialize [{ name := "n", type := .mk .StringTy 0 none [] [] }] =
      .ok [Element.mk "n" "string" 0 []] ∧
    [Element.mk "n" "string" 0 []] ≠ normClaimList [Element.mk "n" "string" 7 []] := by
  refine ⟨?_, ?_, ?_⟩
  · simp [serialize, encode, encodeString]
  · simp [deserialize, decode, decodeString]
  · simp [normClaim]

/-- C1 (witness): the amended round trip applied to a concrete well-formed
three-level schema, normalizing the unset `uint` width to 64. -/
theorem C1_roundtrip_witness :
    wfList [Element.mk "s" "object" 0 [Element.mk "a" "array" 0 [Element.mk "" "uint" 0 []]]] = true ∧
    ∃ args,
      serialize [Element.mk "s" "object" 0 [Element.mk "a" "array" 0 [Element.mk "" "uint" 0 []]]] = .ok args ∧
      deserialize args =
        .ok (normClaimList [Element.mk "s" "object" 0 [Element.mk "a" "array" 0 [Element.mk "" "uint" 0 []]]]) :=
  ⟨by simp [wfList, wf, wfArrayChildren,
      show structOfNamesOk [ToCamelCase "a"] = true by decide],
   C1_roundtrip _ (by simp [wfList, wf, wfArrayChildren,
      show structOfNamesOk [ToCamelCase "a"] = true by decide])⟩

/-! ### Claim C2 -/

/-- C2: for every schema node whose kind lies outside the supported set
`{String, Int, Uint, Bool, Bytes, Address, Array, Object}` — in particular
the `Float` kind — `Serialize` (via `encode`) and the Ethereum-configured
`Build` both return an error naming the offending kind instead of panicking
or producing a zero-value descriptor: `encode` hits its default case, and
`buildType` either hits its default case or, for `Float`, the registered
`ReflectFloatFn` rejection. -/
theorem C2_unsupported_kind (elem : Element) (h : elem.type ∉ supportedKinds) :
    encode elem = .error ("parser does not support " ++ goQuote elem.type) ∧
    Build etherBuilder elem =
      (none, some (if elem.type = "float"
        then "EVM compatibility does not support float types: " ++ elem.type
        else "`Builder does not support type " ++ goQuote elem.type)) := by
  cases elem with
  | mk n t s cs =>
    simp only [supportedKinds, List.mem_cons, List.not_mem_nil, or_false, not_or,
      Element.type_mk] at h
    obtain ⟨h1, h2, h3, h4, h5, h6, h7, h8⟩ := h
    constructor
    · rw [encode]
      simp [h1, h2, h3, h4, h5, h6, h7, h8]
    · by_cases hf : t = "float"
      · subst hf
        rw [Build, buildType]
        simp [unwrapReplacer, EtherReflectFns, etherBuilder, ReflectFloatFn, Fault.message]
      · rw [Build, buildType]
        simp [h1, h2, h3, h4, h5, h6, h7, h8, hf, Fault.message]

/-- C2 (witness): the unsupported-kind failure at the concrete kinds
`float` and `decimal`. -/
theorem C2_unsupported_kind_witness :
    encode (Element.mk "" "float" 0 []) = .error "parser does not support \"float\"" ∧
    Build etherBuilder (Element.mk "" "float" 0 []) =
      (none, some "EVM compatibility does not support float types: float") ∧
    encode (Element.mk "" "decimal" 0 []) = .error "parser does not support \"decimal\"" ∧
    Build etherBuilder (Element.mk "" "decimal" 0 []) =
      (none, some "`Builder does not support type \"decimal\"") := by
  have hf := C2_unsupported_kind (Element.mk "" "float" 0 []) (by decide)
  have hd := C2_unsupported_kind (Element.mk "" "decimal" 0 []) (by decide)
  simp only [Element.type_mk, goQuote] at hf hd
  refine ⟨?_, ?_, ?_, ?_⟩
  · exact hf.1
  · simpa using hf.2
  · exact hd.1
  · simpa using hd.2

/-! ### Claim C3 -/

/-- C3: an `Array` node with a number of children other than one makes both
`Serialize` (via `encode`) and the Ethereum-configured `Build` fail with the
arity error `array must have one child`, with no partial result; with
exactly one child, `encode` converts the child and wraps it as a
fixed-length `ArrayTy` of the node's size when `size > 0`, else as a
dynamically sized `SliceTy`. -/
theorem C3_array_arity (elem : Element) (ht : elem.type = "array") :
    (elem.children.length ≠ 1 →
      encode elem = .error "array must have one child" ∧
      Build etherBuilder elem = (none, some "array must have one child")) ∧
    (∀ c tc, elem.children = [c] → encode c = .ok tc →
      encode elem = .ok (if 0 < elem.size
        then .mk .ArrayTy elem.size (some tc) [] []
        else .mk .SliceTy 0 (some tc) [] [])) := by
  cases elem with
  | mk n t s cs =>
    simp only [Element.type_mk] at ht
    subst ht
    constructor
    · intro hlen
      simp only [Element.children_mk] at hlen
      constructor
      · rw [encode]
        cases cs with
        | nil => simp [encodeArray]
        | cons c rest =>
          cases rest with
          | nil => simp at hlen
          | cons d ds => simp [encodeArray]
      · rw [Build, buildType]
        cases cs with
        | nil => simp [etherBuilder, EtherReflectFns, buildArray, Fault.message]
        | cons c rest =>
          cases rest with
          | nil => simp at hlen
          | cons d ds => simp [etherBuilder, EtherReflectFns, buildArray, Fault.message]
    · intro c tc hcs htc
      simp only [Element.children_mk] at hcs
      subst hcs
      rw [encode]
      simp only [Element.size_mk]
      by_cases h0 : 0 < s
      · simp [encodeArray, htc, h0]
      · simp [encodeArray, htc, h0]

/-- C3 (witness): the arity failure at a childless array, and the
fixed-length wrapping of a single string child at size 2. -/
theorem C3_array_arity_witness :
    (encode (Element.mk "" "array" 0 []) = .error "array must have one child" ∧
     Build etherBuilder (Element.mk "" "array" 0 []) = (none, some "array must have one child")) ∧
    encode (Element.mk "" "array" 2 [Element.mk "" "string" 0 []]) =
      .ok (.mk .ArrayTy 2 (some (.mk .StringTy 0 none [] [])) [] []) := by
  refine ⟨(C3_array_arity (Element.mk "" "array" 0 []) rfl).1 (by simp), ?_⟩
  have h := (C3_array_arity (Element.mk "" "array" 2 [Element.mk "" "string" 0 []]) rfl).2
    (Element.mk "" "string" 0 []) (.mk .StringTy 0 none [] []) rfl
    (by simp [encode, encodeString])
  simpa using h

/-! ### Claim C4 -/

/-- C4: an `Object` node with zero children makes both `Serialize` (via
`encode`) and the Ethereum-configured `Build` fail with the error
`object must have at least one child`. -/
theorem C4_empty_object (elem : Element) (ht : elem.type = "object")
    (hc : elem.children = []) :
    encode elem = .error "object must have at least one child" ∧
    Build etherBuilder elem = (none, some "object must have at least one child") := by
  cases elem with
  | mk n t s cs =>
    simp only [Element.type_mk] at ht
    simp only [Element.children_mk] at hc
    subst ht hc
    constructor
    · rw [encode]
      simp [encodeObject]
    · rw [Build, buildType]
      simp [etherBuilder, EtherReflectFns, buildObject, Fault.message]

/-- C4 (witness): the empty-object failure at a concrete childless
object. -/
theorem C4_empty_object_witness :
    encode (Element.mk "" "object" 0 []) = .error "object must have at least one child" ∧
    Build etherBuilder (Element.mk "" "object" 0 []) =
      (none, some "object must have at least one child") :=
  C4_empty_object (Element.mk "" "object" 0 []) rfl rfl

/-! ### Claim C5 -/

@[simp] theorem namesAlignedArray_single (c : Element) (inner : AbiType) :
    namesAlignedArray [c] (some inner) = namesAligned c inner := by
  rw [namesAlignedArray]

/-- Encoding a child list yields field pairs whose first components are the
children's names in order and whose descriptors align pointwise. -/
theorem encodeFields_aligned (cs : List Element)
    (IH : ∀ c ∈ cs, ∀ ty, encode c = .ok ty → namesAligned c ty = true) :
    ∀ fs, encodeFields cs = .ok fs →
      fs.map Prod.fst = cs.map Element.name ∧
      namesAlignedList cs (fs.map Prod.snd) = true := by
  induction cs with
  | nil =>
    intro fs hfs
    rw [encodeFields] at hfs
    simp at hfs
    subst hfs
    simp [namesAlignedList]
  | cons c rest ihr =>
    intro fs hfs
    rw [encodeFields] at hfs
    cases hc : encode c with
    | error e => simp [hc] at hfs
    | ok ty =>
      cases hrest : encodeFields rest with
      | error e => simp [hc, hrest] at hfs
      | ok fs' =>
        simp [hc, hrest] at hfs
        subst hfs
        obtain ⟨h1, h2⟩ := ihr (fun x hx => IH x (by simp [hx])) fs' hrest
        refine ⟨by simp [h1], ?_⟩
        simp only [List.map_cons]
        rw [namesAlignedList]
        simp [IH c (by simp) ty hc, h2]

/-- Every successful `encode` result aligns names with its input at every
`Object` and `Array` level. -/
theorem encode_aligned :
    ∀ e, ∀ ty, encode e = .ok ty → namesAligned e ty = true := by
  apply Element.strongInduction
    (P := fun e => ∀ ty, encode e = .ok ty → namesAligned e ty = true)
  intro n t s cs IH ty henc
  rw [encode] at henc
  split at henc
  case isTrue h =>
    subst h
    rw [namesAligned]
    simp
  case isFalse h1 =>
  split at henc
  case isTrue h =>
    subst h
    rw [namesAligned]
    simp
  case isFalse h2 =>
  split at henc
  case isTrue h =>
    subst h
    rw [namesAligned]
    simp
  case isFalse h3 =>
  split at henc
  case isTrue h =>
    subst h
    rw [namesAligned]
    simp
  case isFalse h4 =>
  split at henc
  case isTrue h =>
    subst h
    rw [namesAligned]
    simp
  case isFalse h5 =>
  split at henc
  case isTrue h =>
    subst h
    rw [namesAligned]
    simp
  case isFalse h6 =>
  split at henc
  case isTrue h =>
    subst h
    cases cs with
    | nil => simp [encodeArray] at henc
    | cons c rest =>
      cases rest with
      | cons d ds => simp [encodeArray] at henc
      | nil =>
        rw [encodeArray] at henc
        cases hc : encode c with
        | error e => simp [hc] at henc
        | ok tc =>
          simp only [hc, exceptOkBind] at henc
          rw [namesAligned]
          by_cases h0 : 0 < s
          · simp only [if_pos h0, exceptPureEqOk, Except.ok.injEq] at henc
            subst henc
            simp [IH c (by simp) tc hc]
          · simp only [if_neg h0, exceptPureEqOk, Except.ok.injEq] at henc
            subst henc
            simp [IH c (by simp) tc hc]
  case isFalse h7 =>
  split at henc
  case isTrue h =>
    subst h
    rw [encodeObject] at henc
    by_cases hemp : cs.isEmpty
    · simp [hemp] at henc
    · simp only [hemp, Bool.false_eq_true, if_false] at henc
      cases hfs : encodeFields cs with
      | error e => simp [hfs] at henc
      | ok fs =>
        simp only [hfs, exceptOkBind] at henc
        by_cases hok : structOfNamesOk (fs.map (fun f => ToCamelCase f.1)) = true
        · simp only [hok, if_true, exceptPureEqOk, Except.ok.injEq] at henc
          subst henc
          obtain ⟨h1, h2⟩ := encodeFields_aligned cs IH fs hfs
          rw [namesAligned]
          simp [h1, h2]
        · simp [hok] at henc
  case isFalse h8 =>
    exact absurd henc (by simp)

/-- C5: whenever `Serialize` succeeds, the output list has the same length
and order as the input, each top-level node's name is copied onto its
descriptor, and for every `Object` node anywhere in the tree the tuple
descriptor's raw names match the node's children's names and order
exactly. -/
theorem C5_order_and_names (elements : List Element) (args : List Argument)
    (h : serialize elements = .ok args) :
    args.length = elements.length ∧
    args.map Argument.name = elements.map Element.name ∧
    namesAlignedList elements (args.map Argument.type) = true := by
  induction elements generalizing args with
  | nil =>
    rw [serialize] at h
    simp at h
    subst h
    simp [namesAlignedList]
  | cons e rest ih =>
    rw [serialize] at h
    cases he : encode e with
    | error m => simp [he] at h
    | ok ty =>
      cases hr : serialize rest with
      | error m => simp [he, hr] at h
      | ok args' =>
        simp [he, hr] at h
        subst h
        obtain ⟨l1, l2, l3⟩ := ih args' hr
        refine ⟨by simp [l1], by simp [l2], ?_⟩
        simp only [List.map_cons]
        rw [namesAlignedList]
        simp [encode_aligned e ty he, l3]

/-- C5 (witness): order and name preservation at a concrete two-field
object schema. -/
theorem C5_order_and_names_witness :
    serialize c5schema = .ok c5args ∧
    c5args.length = c5schema.length ∧
    c5args.map Argument.name = c5schema.map Element.name ∧
    namesAlignedList c5schema (c5args.map Argument.type) = true := by
  have hser : serialize c5schema = .ok c5args := by
    simp [serialize, encode, encodeObject, encodeFields, encodeString, encodeNumber,
      c5schema, c5args,
      show structOfNamesOk [ToCamelCase "a", ToCamelCase "b"] = true by decide]
  have h := C5_order_and_names _ _ hser
  exact ⟨hser, h.1, h.2.1, h.2.2⟩

/-! ### Claim C6 -/

/-- C6: an `Int`/`Uint` node encodes to a signed/unsigned integer
descriptor whose width is the node's size when positive and 64 when the
size is unset or not positive. -/
theorem C6_number_width (elem : Element)
    (ht : elem.type = "int" ∨ elem.type = "uint") :
    encode elem = .ok (.mk (if elem.type = "int" then .IntTy else .UintTy)
      (if 0 < elem.size then elem.size else 64) none [] []) := by
  cases elem with
  | mk n t s cs =>
    simp only [Element.type_mk] at ht
    rcases ht with h | h <;> subst h
    · rw [encode]
      by_cases h0 : 0 < s
      · have hle : ¬ s ≤ 0 := by omega
        simp [encodeNumber, h0, hle]
      · have hle : s ≤ 0 := by omega
        simp [encodeNumber, h0, hle]
    · rw [encode]
      by_cases h0 : 0 < s
      · have hle : ¬ s ≤ 0 := by omega
        simp [encodeNumber, h0, hle]
      · have hle : s ≤ 0 := by omega
        simp [encodeNumber, h0, hle]

/-- C6 (witness): the unset width defaulting to 64 for `int` and the
verbatim width 8 for `uint`. -/
theorem C6_number_width_witness :
    encode (Element.mk "" "int" 0 []) = .ok (.mk .IntTy 64 none [] []) ∧
    encode (Element.mk "" "uint" 8 []) = .ok (.mk .UintTy 8 none [] []) := by
  have h1 := C6_number_width (Element.mk "" "int" 0 []) (Or.inl rfl)
  have h2 := C6_number_width (Element.mk "" "uint" 8 []) (Or.inr rfl)
  simp only [Element.type_mk, Element.size_mk] at h1 h2
  constructor
  · simpa using h1
  · simpa using h2

/-! ### Claim C7 -/

/-- C7 (counterexample to the claim as stated): the claim predicts a
fixed-length byte descriptor for every nonzero size including negatives,
but a `Bytes` node with `size = -1` encodes to the dynamic `BytesTy`
descriptor, not to a `FixedBytesTy` of length `-1` — the code treats every
`size <= 0` as dynamic. -/
theorem C7_counterexample :
    (-1 : Int) ≠ 0 ∧
    encode (Element.mk "" "bytes" (-1) []) = .ok (.mk .BytesTy 0 none [] []) ∧
    (Except.ok (AbiType.mk .BytesTy 0 none [] []) : Except String AbiType) ≠
      .ok (.mk .FixedBytesTy (-1) none [] []) := by
  refine ⟨by decide, ?_, by simp⟩
  rw [encode]
  simp [encodeBytes]

/-- C7 (amended): a `Bytes` node encodes to the dynamic byte-sequence
descriptor exactly when `size <= 0` (not `size == 0`: negative sizes are
also dynamic), and to a fixed-length byte-sequence descriptor of length
`size` when `size > 0`. -/
theorem C7_bytes_sizing (elem : Element) (ht : elem.type = "bytes") :
    encode elem = .ok (if elem.size ≤ 0
      then .mk .BytesTy 0 none [] []
      else .mk .FixedBytesTy elem.size none [] []) := by
  cases elem with
  | mk n t s cs =>
    simp only [Element.type_mk] at ht
    subst ht
    rw [encode]
    by_cases h0 : s ≤ 0 <;> simp [encodeBytes, h0]

/-- C7 (witness): fixed-length at size 32 and dynamic at size -7. -/
theorem C7_bytes_sizing_witness :
    encode (Element.mk "" "bytes" 32 []) = .ok (.mk .FixedBytesTy 32 none [] []) ∧
    encode (Element.mk "" "bytes" (-7) []) = .ok (.mk .BytesTy 0 none [] []) := by
  have h1 := C7_bytes_sizing (Element.mk "" "bytes" 32 []) rfl
  have h2 := C7_bytes_sizing (Element.mk "" "bytes" (-7) []) rfl
  simp only [Element.size_mk] at h1 h2
  constructor
  · simpa using h1
  · simpa using h2

/-! ### Claim C8 -/

/-- C8: for an `Int`/`Uint` node whose kind has no registered override, the
synthesized value type is the fixed-width native numeric type of the node's
size when it is 8, 16, 32 or 64 (an unset 0 treated as 64-bit), and the
arbitrary-precision `*big.Int` for every other size. -/
theorem C8_native_widths (b : Builder) (elem : Element)
    (ht : elem.type = "int" ∨ elem.type = "uint")
    (hrs : b.ReflectReplacers elem.type = none) :
    buildType b elem = .ok (claimNativeNumType elem.type elem.size) := by
  cases elem with
  | mk n t s cs =>
    simp only [Element.type_mk] at ht hrs
    simp only [Element.type_mk, Element.size_mk]
    rcases ht with h | h <;> subst h
    · rw [buildType]
      simp only [unwrapReplacer, hrs]
      simp [buildInt, claimNativeNumType]
      split_ifs <;> simp_all
    · rw [buildType]
      simp only [unwrapReplacer, hrs]
      simp [buildUint, claimNativeNumType]
      split_ifs <;> simp_all

/-- C8 (witness): with an override-free builder, a 128-bit `uint` falls
back to `*big.Int` and an unset-width `int` synthesizes `int64`. -/
theorem C8_native_widths_witness :
    (Builder.mk DefaultReflectReplacers DefaultStructTag).ReflectReplacers "uint" = none ∧
    buildType (Builder.mk DefaultReflectReplacers DefaultStructTag)
      (Element.mk "" "uint" 128 []) = .ok .bigIntPtr ∧
    buildType (Builder.mk DefaultReflectReplacers DefaultStructTag)
      (Element.mk "" "int" 0 []) = .ok .goInt64 := by
  have h1 := C8_native_widths (Builder.mk DefaultReflectReplacers DefaultStructTag)
    (Element.mk "" "uint" 128 []) (Or.inr rfl) rfl
  have h2 := C8_native_widths (Builder.mk DefaultReflectReplacers DefaultStructTag)
    (Element.mk "" "int" 0 []) (Or.inl rfl) rfl
  refine ⟨rfl, ?_, ?_⟩
  · simpa [claimNativeNumType] using h1
  · simpa [claimNativeNumType] using h2

/-! ### Claim C9 -/

/-- C9: every `buildType` failure — an ordinary error or a recovered
runtime panic — is returned by `Build` as an ordinary error string paired
with a nil value; no fault escapes. -/
theorem C9_build_recovers (b : Builder) (elem : Element) (f : Fault)
    (h : buildType b elem = .error f) :
    Build b elem = (none, some f.message) := by
  rw [Build, h]

/-- C9 (witness): the documented panic case — an `Object` child with an
empty name makes `reflect.StructOf` panic inside `buildType`, and `Build`
returns it as an ordinary error with a nil value. -/
theorem C9_build_recovers_witness :
    buildType etherBuilder (Element.mk "t" "object" 0 [Element.mk "" "string" 0 []]) =
      .error (.goPanic "reflect.StructOf: field has no name or invalid name") ∧
    Build etherBuilder (Element.mk "t" "object" 0 [Element.mk "" "string" 0 []]) =
      (none, some "reflect.StructOf: field has no name or invalid name") := by
  have hb : buildType etherBuilder (Element.mk "t" "object" 0 [Element.mk "" "string" 0 []]) =
      .error (.goPanic "reflect.StructOf: field has no name or invalid name") := by
    simp [buildType, buildObject, buildFieldList, buildString, unwrapReplacer,
      EtherReflectFns, etherBuilder, reflectStructOf,
      show structOfNamesOk [ToCamelCase ""] = false by decide]
  exact ⟨hb, C9_build_recovers _ _ _ hb⟩

/-! ### Claim C10 -/

/-- C10: a tuple descriptor with empty (equal-length) name and member lists
deserializes successfully into an `Object` element with no children — a
tree that violates the non-empty-object invariant and that a subsequent
`Serialize` rejects with the empty-object error; the reverse path does not
enforce the invariant. -/
theorem C10_reverse_no_invariant :
    deserialize [{ name := "o", type := .mk .TupleTy 0 none [] [] }] =
      .ok [Element.mk "o" "object" 0 []] ∧
    serialize [Element.mk "o" "object" 0 []] =
      .error "object must have at least one child" := by
  constructor
  · simp [deserialize, decode, decodeObject, decodeFields]
  · simp [serialize, encode, encodeObject]
